import Mathlib

/-!
# Verification of the `pokerengine` hand-lifecycle state machine

Shallow embedding of `poker_agent.py` (class `PokerEngine`): the data model,
the legal-action resolver, the action applier, turn rotation, betting-round
completion, phase advancement with fast-forward, and showdown distribution.
Money amounts are Python integers, embedded as `Int`.  The external treys
evaluator is an abstract `score` parameter (lower score is better), and the
seeded shuffle (`random.Random(seed).shuffle`) is an external PRNG, so a
hand's shuffled deck is passed to `start_hand` directly: a fixed deck list
plays the role of a fixed deck seed.
-/

namespace Poker

/-- The `Phase` enum of the source, in the order of `_phase_order`. -/
inductive Phase where
  | preflop
  | flop
  | turn
  | river
  | showdown
  | completed
deriving DecidableEq, Repr

/-- Successor phase, `self._phase_order[cur + 1]`.  The source never advances
from `COMPLETED` (indexing past the end of `_phase_order` would raise), so
`completed` is mapped to itself. -/
def Phase.next : Phase → Phase
  | .preflop => .flop
  | .flop => .turn
  | .turn => .river
  | .river => .showdown
  | .showdown => .completed
  | .completed => .completed

/-- `PlayerState` dataclass of the source. -/
structure PlayerState where
  player_id : String
  stack : Int
  hole_cards : List String := []
  committed : Int := 0
  is_folded : Bool := false
  is_all_in : Bool := false
  seat : Nat := 0
deriving DecidableEq, Repr, Inhabited

/-- `Action` dataclass of the source: one immutable log entry. -/
structure ActionRec where
  player_id : String
  action : String
  amount : Int := 0
deriving DecidableEq, Repr

/-- One entry of `pot_history`: either the single-winner record
(`winner`/`amount` keys) or the tie record (`winners`/`split`/`remainder`). -/
inductive PotEntry where
  | single (winner : String) (amount : Int)
  | split (winners : List String) (share remainder : Int)
deriving DecidableEq, Repr

/-- The mutable fields of class `PokerEngine` that the hand lifecycle reads or
writes (`hand_id` and `deck_seed` are opaque audit strings and are omitted). -/
structure PokerEngine where
  players : List PlayerState
  phase : Option Phase := none
  button_index : Nat := 0
  current_actor_index : Nat := 0
  deck : List String := []
  community_cards : List String := []
  pot_history : List PotEntry := []
  actions : List ActionRec := []
  small_blind : Int := 5
  big_blind : Int := 10
  total_pot : Int := 0
deriving DecidableEq, Repr

/-- `PokerEngine.__init__`: seat `i` holds `player_ids[i]` with stack
`starting_stacks[i]`.  (The source asserts at least two players and would
raise `IndexError` on a short stack list; out-of-range lookups here return
defaults and are unreachable when the lists have the same length.) -/
def mkEngine (player_ids : List String) (starting_stacks : List Int)
    (small_blind : Int := 5) (big_blind : Int := 10) : PokerEngine :=
  { players := (List.range player_ids.length).map (fun i =>
      { player_id := player_ids.getD i ""
        stack := starting_stacks.getD i 0
        seat := i })
    small_blind := small_blind
    big_blind := big_blind }

/-- `max(pl.committed for pl in self.players)` — Python `max` over a nonempty
sequence (the engine always has at least two players; on `[]` the source
would raise, here we return `0`). -/
def maxCommitted : List PlayerState → Int
  | [] => 0
  | p :: rest => rest.foldl (fun m q => max m q.committed) p.committed

/-- `find_player_index`: index of the first player whose id matches, `none`
when the source would raise `KeyError`. -/
def find_player_index (e : PokerEngine) (player_id : String) : Option Nat :=
  e.players.findIdx? (fun p => p.player_id == player_id)

/-- Body of `legal_actions` (lines 170-196) once the seat has been looked up. -/
def legalActionsOf (phase : Option Phase) (players : List PlayerState)
    (p : PlayerState) : List String :=
  if p.is_folded || p.is_all_in || phase == some Phase.completed then []
  else
    let highest := maxCommitted players
    let to_call := highest - p.committed
    if to_call > 0 then
      ["fold"]
        ++ (if p.stack ≥ to_call then ["call"] else [])
        ++ (if p.stack > to_call then ["raise"] else [])
        ++ (if p.stack > 0 then ["allin"] else [])
    else
      ["check"] ++ (if p.stack > 0 then ["bet", "allin"] else [])

/-- `legal_actions(player_id)`: looks up the seat (propagating the lookup
failure, a `KeyError` in the source) and resolves the legal set. -/
def legal_actions (e : PokerEngine) (player_id : String) : Option (List String) :=
  (find_player_index e player_id).map
    (fun idx => legalActionsOf e.phase e.players (e.players.getD idx default))

/-- Move `pay` chips of the player at position `idx` from stack into
committed and the pot, marking all-in when the stack hits zero — the shared
mutation pattern of the `call` / `bet` / `raise` / `allin` branches. -/
def commitPay (e : PokerEngine) (idx : Nat) (pay : Int) : PokerEngine :=
  let p := e.players.getD idx default
  let p1 := { p with stack := p.stack - pay, committed := p.committed + pay }
  let p2 := if p1.stack == 0 then { p1 with is_all_in := true } else p1
  { e with players := e.players.set idx p2, total_pot := e.total_pot + pay }

/-- The per-action mutation block of `apply_action` (lines 217-260): the
branch on the action name, which may fail on a bad bet/raise amount.  In the
`allin` branch the source sets `is_all_in` unconditionally; paying the whole
stack leaves it at zero, so `commitPay` marks all-in there as well. -/
def applyActionCore (e : PokerEngine) (idx : Nat) (player_id action : String)
    (amount : Int) : Except String PokerEngine :=
  let p := e.players.getD idx default
  let highest := maxCommitted e.players
  let to_call := highest - p.committed
  if action == "fold" then
    .ok { e with players := e.players.set idx { p with is_folded := true },
                 actions := e.actions ++ [⟨player_id, action, 0⟩] }
  else if action == "call" then
    let pay := min p.stack to_call
    .ok { commitPay e idx pay with actions := e.actions ++ [⟨player_id, action, pay⟩] }
  else if action == "check" then
    .ok { e with actions := e.actions ++ [⟨player_id, action, 0⟩] }
  else if action == "bet" then
    if amount ≤ 0 || amount > p.stack then .error "Invalid bet amount"
    else
      .ok { commitPay e idx amount with actions := e.actions ++ [⟨player_id, "bet", amount⟩] }
  else if action == "raise" then
    if amount ≤ 0 || amount > p.stack then .error "Invalid raise amount"
    else
      let pay := min p.stack (to_call + amount)
      .ok { commitPay e idx pay with actions := e.actions ++ [⟨player_id, "raise", pay⟩] }
  else if action == "allin" then
    let pay := p.stack
    .ok { commitPay e idx pay with actions := e.actions ++ [⟨player_id, "allin", pay⟩] }
  else
    .ok e

/-- `_advance_turn` (lines 276-293): move the actor pointer to the next seat
clockwise that is neither folded nor all-in; leave it unchanged when no seat
can act. -/
def advance_turn (e : PokerEngine) : PokerEngine :=
  let active := e.players.filter (fun p => !p.is_folded && !p.is_all_in)
  if active.length == 0 then e
  else
    let n := e.players.length
    match ((List.range n).map (fun i => (e.current_actor_index + (i + 1)) % n)).find?
        (fun idx =>
          let p := e.players.getD idx default
          !p.is_folded && !p.is_all_in) with
    | some idx => { e with current_actor_index := idx }
    | none => e

/-- `_is_betting_round_complete` (lines 298-314). -/
def is_betting_round_complete (e : PokerEngine) : Bool :=
  let active := e.players.filter (fun p => !p.is_folded && !p.is_all_in)
  if active.length == 0 then true
  else
    let highest := maxCommitted e.players
    active.all (fun p => p.committed == highest)

/-- Burn one card (`self.deck.pop(0)`, discarded) and reveal the next `k` as
community cards.  The source pops the revealed cards one by one and appends
them in order, which is exactly `take k` / `drop k` of the post-burn deck.
Popping an empty deck would raise `IndexError` in the source; here `tail` and
`take` just run out, which is unreachable with a 52-card deck. -/
def burnAndReveal (e : PokerEngine) (k : Nat) : PokerEngine :=
  let afterBurn := e.deck.tail
  { e with community_cards := e.community_cards ++ afterBurn.take k
           deck := afterBurn.drop k }

/-- Append `amt` chips to the stack of the player at position `idx`
(`p.stack += amt` on the aliased player object). -/
def addStack (ps : List PlayerState) (idx : Nat) (amt : Int) : List PlayerState :=
  let p := ps.getD idx default
  ps.set idx { p with stack := p.stack + amt }

/-- The `active` local of `evaluate_and_distribute`
(`[p for p in self.players if not p.is_folded]`), as list positions: the
source mutates player objects aliased in `active`; we carry their list
positions instead. -/
def showdownActive (e : PokerEngine) : List Nat :=
  (List.range e.players.length).filter
    (fun i => !(e.players.getD i default).is_folded)

/-- The evaluator score of the seat at position `i`
(`evaluator.evaluate(board, p.hole_cards)` with the abstract evaluator). -/
def scoreOfIdx (score : List String → List String → Nat)
    (e : PokerEngine) (i : Nat) : Nat :=
  score e.community_cards (e.players.getD i default).hole_cards

/-- The `scores` local: `(score, player)` pairs of every unfolded seat. -/
def showdownScores (score : List String → List String → Nat)
    (e : PokerEngine) : List (Nat × Nat) :=
  (showdownActive e).map (fun i => (scoreOfIdx score e i, i))

/-- `scores.sort(key=lambda x: x[0])`: Python Timsort is a stable sort by the
score component; the stable sort of a list is unique, so `List.mergeSort`
ordered by the score component computes the same list. -/
def showdownSorted (score : List String → List String → Nat)
    (e : PokerEngine) : List (Nat × Nat) :=
  (showdownScores score e).mergeSort (fun a b => decide (a.1 ≤ b.1))

/-- The `best_score` local: score of the head of the sorted list
(`scores[0]`; the `(0, 0)` default is unreachable, the list is nonempty
whenever this is read). -/
def showdownBest (score : List String → List String → Nat)
    (e : PokerEngine) : Nat :=
  ((showdownSorted score e).headD (0, 0)).1

/-- The `tied` local: every scored seat achieving `best_score`, in sorted
order. -/
def showdownTied (score : List String → List String → Nat)
    (e : PokerEngine) : List Nat :=
  ((showdownSorted score e).filter (fun sp => sp.1 == showdownBest score e)).map (·.2)

/-- The co-winners described by the spec: every unfolded seat achieving the
best score, in seat order.  Because the source's sort is stable, its `tied`
list equals this one (`showdownTied_eq`). -/
def showdownWinners (score : List String → List String → Nat)
    (e : PokerEngine) : List Nat :=
  (showdownActive e).filter (fun i => scoreOfIdx score e i == showdownBest score e)

/-- `evaluate_and_distribute` (lines 369-412).  The treys evaluator
(`Card.new` conversion plus `evaluator.evaluate`) is an external collaborator
modelled by the abstract `score` argument, taking the community cards and a
hole-card list (lower is better).  An empty `active` would raise `IndexError`
at `scores[0]` in the source and is unreachable (some seat is always
unfolded); we return the state unchanged there. -/
def evaluate_and_distribute (score : List String → List String → Nat)
    (e : PokerEngine) : PokerEngine :=
  match showdownActive e with
  | [] => e
  | [w] =>
    let winner := e.players.getD w default
    { e with players := addStack e.players w e.total_pot
             pot_history := e.pot_history ++ [.single winner.player_id e.total_pot]
             total_pot := 0 }
  | _ =>
    let tied := showdownTied score e
    let share := e.total_pot / (tied.length : Int)
    let remainder := e.total_pot % (tied.length : Int)
    let players1 := tied.foldl (fun ps i => addStack ps i share) e.players
    let players2 := addStack players1 (tied.headD 0) remainder
    { e with players := players2
             pot_history := e.pot_history ++
               [.split (tied.map (fun i => (e.players.getD i default).player_id)) share remainder]
             total_pot := 0 }

/-- The fast-forward `while` loop of `_advance_phase` (lines 349-365): advance
phase by phase, dealing the turn and river cards, until SHOWDOWN triggers
distribution (or COMPLETED is reached).  The loop runs at most three
iterations; `fuel` (called with 5) bounds the recursion. -/
def ffLoop (score : List String → List String → Nat) :
    Nat → PokerEngine → PokerEngine
  | 0, e => e
  | fuel + 1, e =>
    match e.phase with
    | none => e
    | some Phase.showdown => e
    | some Phase.completed => e
    | some ph =>
      let ph2 := ph.next
      let e1 := { e with phase := some ph2 }
      match ph2 with
      | .turn => ffLoop score fuel (burnAndReveal e1 1)
      | .river => ffLoop score fuel (burnAndReveal e1 1)
      | .showdown =>
        { evaluate_and_distribute score e1 with phase := some Phase.completed }
      | _ => ffLoop score fuel e1

/-- `_advance_phase` (lines 318-365): step to the next phase, deal the street,
run showdown distribution, and fast-forward the remaining streets when no seat
can act.  The source is never called with `phase = None` (indexing
`_phase_order` would raise); we return the state unchanged there. -/
def advance_phase (score : List String → List String → Nat)
    (e : PokerEngine) : PokerEngine :=
  match e.phase with
  | none => e
  | some ph =>
    let ph2 := ph.next
    let e1 := { e with phase := some ph2 }
    let e2 :=
      match ph2 with
      | .flop => burnAndReveal e1 3
      | .turn => burnAndReveal e1 1
      | .river => burnAndReveal e1 1
      | _ => e1
    if ph2 == Phase.showdown then
      { evaluate_and_distribute score e1 with phase := some Phase.completed }
    else
      let active := e2.players.filter (fun p => !p.is_folded && !p.is_all_in)
      if active.length == 0 then ffLoop score 5 e2 else e2

/-- Result of `apply_action`: the success dict (`ok`/`phase`/`total_pot`
keys), an error dict (`error` key), or an uncaught Python exception — the
`KeyError` that `find_player_index` raises for an unknown id. -/
inductive ApplyResult where
  | ok (phase : Option Phase) (total_pot : Int)
  | error (msg : String)
  | raised (player_id : String)
deriving DecidableEq, Repr

/-- `apply_action` (lines 200-273).  The source re-runs the seat lookup inside
`legal_actions(player_id)`; it returns the same index, so the legal set is
resolved directly on the looked-up player. -/
def apply_action (score : List String → List String → Nat) (e : PokerEngine)
    (player_id action : String) (amount : Int := 0) : ApplyResult × PokerEngine :=
  if e.phase == none || e.phase == some Phase.completed then
    (.error "No active hand", e)
  else
    match find_player_index e player_id with
    | none => (.raised player_id, e)
    | some idx =>
      let p := e.players.getD idx default
      if p.is_folded || p.is_all_in then (.error "Player cannot act", e)
      else
        let legal := legalActionsOf e.phase e.players p
        if !(legal.contains action) then (.error "Illegal action", e)
        else
          match applyActionCore e idx player_id action amount with
          | .error msg => (.error msg, e)
          | .ok e1 =>
            let e2 := advance_turn e1
            let e3 := if is_betting_round_complete e2 then advance_phase score e2 else e2
            (.ok e3.phase e3.total_pot, e3)

/-- The local `post_blind` closure of `start_hand` (lines 101-109). -/
def post_blind (e : PokerEngine) (idx : Nat) (amount : Int) (label : String) :
    PokerEngine :=
  let p := e.players.getD idx default
  let actual := min p.stack amount
  let p1 := { p with stack := p.stack - actual, committed := p.committed + actual }
  let p2 := if p1.stack == 0 then { p1 with is_all_in := true } else p1
  { e with players := e.players.set idx p2
           total_pot := e.total_pot + actual
           actions := e.actions ++ [⟨p.player_id, "post_" ++ label, actual⟩] }

/-- One step of the hole-card dealing loop of `start_hand` (lines 116-119):
pop the front card and give it to seat `(deal_start + i) % n`. -/
def dealOneCard (n deal_start : Nat) (e : PokerEngine) (i : Nat) : PokerEngine :=
  let seat := (deal_start + i) % n
  let card := e.deck.headD ""
  let p := e.players.getD seat default
  { e with deck := e.deck.tail
           players := e.players.set seat { p with hole_cards := p.hole_cards ++ [card] } }

/-- The hole-card dealing loop of `start_hand` (lines 114-119): two passes,
one card per seat per pass, clockwise from `deal_start`. -/
def dealHoleCards (e : PokerEngine) (deal_start : Nat) : PokerEngine :=
  let n := e.players.length
  (List.range 2).foldl (fun e2 _ =>
    (List.range n).foldl (dealOneCard n deal_start) e2) e

/-- `start_hand` (lines 84-136) with the shuffled deck passed in (see the
file comment): reset the per-hand fields, post the blinds, deal hole cards,
enter PRE_FLOP, and point the actor at the first eligible seat at or after
two past the button. -/
def start_hand (e : PokerEngine) (deck : List String) : PokerEngine :=
  let e0 := { e with deck := deck
                     community_cards := []
                     total_pot := 0
                     actions := []
                     pot_history := []
                     players := e.players.map (fun p =>
                       { p with hole_cards := [], committed := 0,
                                is_folded := false, is_all_in := false }) }
  let n := e0.players.length
  let sb := e0.button_index
  let bb := (e0.button_index + 1) % n
  let e1 := post_blind e0 sb e0.small_blind "sb"
  let e2 := post_blind e1 bb e1.big_blind "bb"
  let deal_start := (e2.button_index + 1) % n
  let e3 := dealHoleCards e2 deal_start
  let e4 := { e3 with phase := some Phase.preflop
                      current_actor_index := (bb + 1) % n }
  match ((List.range n).map (fun i => (e4.current_actor_index + i) % n)).find?
      (fun idx =>
        let p := e4.players.getD idx default
        !p.is_folded && !p.is_all_in) with
  | some idx => { e4 with current_actor_index := idx }
  | none => e4

/-- Run a sequence of `apply_action` requests (player id, action name,
amount), keeping the state each call returns — the orchestration loop of the
spec, restricted to one hand. -/
def runActions (score : List String → List String → Nat)
    (reqs : List (String × String × Int)) (e : PokerEngine) : PokerEngine :=
  reqs.foldl (fun e r => (apply_action score e r.1 r.2.1 r.2.2).2) e

/-- Total chips on the table: stacks plus the pot.  `committed` is a
bookkeeping record of chips already counted inside `total_pot`. -/
def sumStacks (ps : List PlayerState) : Int :=
  (ps.map PlayerState.stack).sum

/-- The conserved money quantity: `sum(stack) + total_pot`. -/
def moneySum (e : PokerEngine) : Int :=
  sumStacks e.players + e.total_pot

/-- The quantity named by the spec's conservation sentence:
`sum(stack) + sum(committed) + total_pot`. -/
def moneySum3 (e : PokerEngine) : Int :=
  sumStacks e.players + (e.players.map PlayerState.committed).sum + e.total_pot

/-! ### Concrete fixtures used in witnesses and counterexamples -/

/-- A trivial evaluator: every hand scores 0 (all showdowns tie). -/
def scoreZ : List String → List String → Nat := fun _ _ => 0

/-- A concrete 14-card deck prefix (a full hand of heads-up consumes at most
12 cards). -/
def cDeck : List String :=
  ["c01", "c02", "c03", "c04", "c05", "c06", "c07", "c08", "c09", "c10",
   "c11", "c12", "c13", "c14"]

/-- Fresh two-player engine, 1000 chips each, blinds 5/10. -/
def cE0 : PokerEngine := mkEngine ["p0", "p1"] [1000, 1000]

/-- `cE0` with a hand started on `cDeck`: blinds 5/10 posted, PRE_FLOP,
seat 0 (small blind) to act. -/
def cE1 : PokerEngine := start_hand cE0 cDeck

/-- Seat 0 folds to the big blind, who then checks down the dealt streets:
a request sequence driving the hand from PRE_FLOP to COMPLETED. -/
def cReqs : List (String × String × Int) :=
  [("p0", "fold", 0), ("p1", "check", 0), ("p1", "check", 0), ("p1", "check", 0)]

/-- A PRE_FLOP state with both seats all-in (ready to fast-forward) and an
8-card remaining deck. -/
def cFF : PokerEngine :=
  { players :=
      [{ player_id := "p0", stack := 0, hole_cards := ["h1", "h2"],
         committed := 1000, is_all_in := true },
       { player_id := "p1", stack := 0, hole_cards := ["h3", "h4"],
         committed := 1000, is_all_in := true, seat := 1 }]
    phase := some Phase.preflop
    deck := ["d0", "d1", "d2", "d3", "d4", "d5", "d6", "d7"]
    total_pot := 2000 }

/-- A three-way showdown state: three unfolded all-in seats, pot 100, a full
board.  Under `scoreZ` all three tie. -/
def cTie : PokerEngine :=
  { players :=
      [{ player_id := "t0", stack := 0, hole_cards := ["a1", "a2"],
         committed := 34, is_all_in := true },
       { player_id := "t1", stack := 0, hole_cards := ["a3", "a4"],
         committed := 33, is_all_in := true, seat := 1 },
       { player_id := "t2", stack := 0, hole_cards := ["a5", "a6"],
         committed := 33, is_all_in := true, seat := 2 }]
    phase := some Phase.showdown
    community_cards := ["b1", "b2", "b3", "b4", "b5"]
    total_pot := 100 }

/-- A PRE_FLOP state with the same deck as `cFF` but seats still able to
act: the step-by-step dealing path. -/
def cFFStep : PokerEngine :=
  { players :=
      [{ player_id := "q0", stack := 500, hole_cards := ["h1", "h2"],
         committed := 10 },
       { player_id := "q1", stack := 500, hole_cards := ["h3", "h4"],
         committed := 10, seat := 1 }]
    phase := some Phase.preflop
    deck := ["d0", "d1", "d2", "d3", "d4", "d5", "d6", "d7"]
    total_pot := 20 }

/-! ### Helper lemmas -/

theorem sumStacks_set (ps : List PlayerState) (idx : Nat) (p : PlayerState)
    (h : idx < ps.length) :
    sumStacks (ps.set idx p) =
      sumStacks ps - (ps.getD idx default).stack + p.stack := by
  induction ps generalizing idx with
  | nil => simp at h
  | cons a as ih =>
    cases idx with
    | zero => simp [sumStacks]; ring
    | succ n =>
      have hn : n < as.length := by simpa using h
      have hstep : (a :: as).set (n + 1) p = a :: as.set n p := rfl
      rw [hstep]
      simp only [sumStacks, List.map_cons, List.sum_cons, List.getD_cons_succ]
      have := ih n hn
      simp only [sumStacks] at this
      rw [this]; ring

theorem le_maxCommitted (ps : List PlayerState) (p : PlayerState) (hp : p ∈ ps) :
    p.committed ≤ maxCommitted ps := by
  cases ps with
  | nil => simp at hp
  | cons a as =>
    simp only [maxCommitted]
    have key : ∀ (l : List PlayerState) (m : Int),
        (∀ q ∈ l, q.committed ≤ l.foldl (fun m q => max m q.committed) m) ∧
        m ≤ l.foldl (fun m q => max m q.committed) m := by
      intro l
      induction l with
      | nil => simp
      | cons b bs ihb =>
        intro m
        refine ⟨?_, ?_⟩
        · intro q hq
          rcases List.mem_cons.mp hq with rfl | hq2
          · exact le_trans (le_max_right m q.committed) (ihb _).2
          · exact (ihb _).1 q hq2
        · exact le_trans (le_max_left m b.committed) (ihb _).2
    rcases List.mem_cons.mp hp with rfl | hp2
    · exact (key as p.committed).2
    · exact (key as a.committed).1 p hp2

theorem length_addStack (ps : List PlayerState) (idx : Nat) (amt : Int) :
    (addStack ps idx amt).length = ps.length := by
  simp [addStack]

theorem sumStacks_addStack (ps : List PlayerState) (idx : Nat) (amt : Int)
    (h : idx < ps.length) :
    sumStacks (addStack ps idx amt) = sumStacks ps + amt := by
  unfold addStack
  rw [sumStacks_set _ _ _ h]
  ring

/-! ### Claim C2: betting-round completion -/

/-- **C2** — `_is_betting_round_complete` returns `true` iff (a) no seat is
both unfolded and not all-in, or (b) every unfolded-and-not-all-in seat has
`committed` equal to the maximum `committed` over all seats of the hand. -/
theorem betting_round_complete_iff (e : PokerEngine) :
    is_betting_round_complete e = true ↔
      ((∀ p ∈ e.players, p.is_folded = true ∨ p.is_all_in = true) ∨
       (∀ p ∈ e.players, p.is_folded = false → p.is_all_in = false →
          p.committed = maxCommitted e.players)) := by
  unfold is_betting_round_complete
  by_cases h : e.players.filter (fun p => !p.is_folded && !p.is_all_in) = []
  · constructor
    · intro _
      left
      intro p hp
      have hnp := List.filter_eq_nil_iff.mp h p hp
      simp only [Bool.and_eq_true, Bool.not_eq_true'] at hnp
      rcases Bool.eq_false_or_eq_true p.is_folded with hf | hf
      · exact Or.inl hf
      · rcases Bool.eq_false_or_eq_true p.is_all_in with ha | ha
        · exact Or.inr ha
        · exact absurd ⟨hf, ha⟩ hnp
    · intro _
      simp [h]
  · have hne : ((e.players.filter (fun p => !p.is_folded && !p.is_all_in)).length == 0) = false := by
      simp [List.length_eq_zero, h]
    simp only [hne, Bool.false_eq_true, if_false, List.all_eq_true, List.mem_filter,
      Bool.and_eq_true, Bool.not_eq_true', beq_iff_eq, and_imp]
    constructor
    · intro hall
      right
      intro p hp hf ha
      exact hall p hp hf ha
    · rintro (hA | hB) p hp hf ha
      · rcases hA p hp with h1 | h1
        · rw [hf] at h1; cases h1
        · rw [ha] at h1; cases h1
      · exact hB p hp hf ha

/-! ### Claim C5: rejected requests leave the state unchanged -/

/-- Every branch of `apply_action` either returns the input state unchanged
or reports success. -/
theorem apply_action_snd_or_ok (score : List String → List String → Nat)
    (e : PokerEngine) (pid act : String) (amt : Int) :
    (apply_action score e pid act amt).2 = e ∨
      ∃ ph pot, (apply_action score e pid act amt).1 = ApplyResult.ok ph pot := by
  unfold apply_action
  dsimp only
  repeat' split
  all_goals first
    | exact Or.inl rfl
    | exact Or.inr ⟨_, _, rfl⟩

/-- **C5** — whenever `apply_action` rejects a request and returns an error
dict, the engine state is exactly as it was before the call. -/
theorem apply_action_error_no_mutation (score : List String → List String → Nat)
    (e : PokerEngine) (pid act : String) (amt : Int) (msg : String)
    (h : (apply_action score e pid act amt).1 = ApplyResult.error msg) :
    (apply_action score e pid act amt).2 = e := by
  rcases apply_action_snd_or_ok score e pid act amt with h2 | ⟨ph, pot, h2⟩
  · exact h2
  · rw [h] at h2; cases h2

/-- Witness for C5: at `cE1` the big blind is owed chips, so seat 0 checking
is illegal; the call errors and the state is returned unchanged. -/
theorem apply_action_error_no_mutation_witness :
    (apply_action scoreZ cE1 "p0" "check" 0).1 = ApplyResult.error "Illegal action" ∧
      (apply_action scoreZ cE1 "p0" "check" 0).2 = cE1 :=
  ⟨by decide, apply_action_error_no_mutation scoreZ cE1 "p0" "check" 0
    "Illegal action" (by decide)⟩

/-! ### Claim C9: structural failures -/

/-- Counterexample to C9 as stated: `cE1` has an active hand, and
`apply_action` for the unknown seat id `"ghost"` does not produce an
`ApplyResult.error` result — the failure escapes as the uncaught `KeyError`
of `find_player_index` (the `raised` constructor), so not every structural
failure is returned as an explicit error result. -/
theorem unknown_seat_escapes_as_exception :
    apply_action scoreZ cE1 "ghost" "fold" 0 = (ApplyResult.raised "ghost", cE1) := by
  decide

/-- **C9 (amended)** — a call with no active hand fails fast with no mutation
and an explicit error result; a call with an unknown seat identifier fails
fast with no mutation, but the failure escapes as the uncaught `KeyError`
raised by `find_player_index`, not as a returned error result. -/
theorem structural_failure_behaviour (score : List String → List String → Nat)
    (e : PokerEngine) (pid act : String) (amt : Int) :
    ((e.phase = none ∨ e.phase = some Phase.completed) →
      apply_action score e pid act amt = (ApplyResult.error "No active hand", e)) ∧
    (¬(e.phase = none ∨ e.phase = some Phase.completed) →
      find_player_index e pid = none →
      apply_action score e pid act amt = (ApplyResult.raised pid, e)) := by
  constructor
  · intro h
    have hc : (e.phase == none || e.phase == some Phase.completed) = true := by
      rcases h with h | h <;> simp [h]
    unfold apply_action
    rw [if_pos hc]
  · intro h hf
    push_neg at h
    have hc : (e.phase == none || e.phase == some Phase.completed) = false := by
      simp [h.1, h.2]
    unfold apply_action
    rw [if_neg (by simp [hc]), hf]

/-- Witness for the amended C9: a fresh engine (no hand) rejects with the
explicit "No active hand" error; a started hand with an unknown id ends in
the uncaught lookup failure. -/
theorem structural_failure_behaviour_witness :
    apply_action scoreZ cE0 "p0" "fold" 0 = (ApplyResult.error "No active hand", cE0) ∧
      apply_action scoreZ cE1 "ghost2" "fold" 0 = (ApplyResult.raised "ghost2", cE1) :=
  ⟨(structural_failure_behaviour scoreZ cE0 "p0" "fold" 0).1 (Or.inl rfl),
   (structural_failure_behaviour scoreZ cE1 "ghost2" "fold" 0).2 (by decide) (by decide)⟩

/-! ### Claim C1: the spec's three-term sum is not conserved -/

/-- Counterexample to C1 as stated: over a full hand (seat 0 folds, seat 1
checks the hand down to COMPLETED), `sum(stack) + sum(committed) + total_pot`
moves from 2000 before the blinds to 2015 at hand completion — the blinds
remain double-counted in `committed` after distribution, so the claimed
quantity is not restored at hand completion. -/
theorem money_sum3_not_conserved :
    moneySum3 cE0 = 2000 ∧
      (runActions scoreZ cReqs (start_hand cE0 cDeck)).phase = some Phase.completed ∧
      moneySum3 (runActions scoreZ cReqs (start_hand cE0 cDeck)) = 2015 ∧
      (2015 : Int) ≠ 2000 :=
  ⟨by decide, by decide, by decide, by decide⟩

/-! ### Field-preservation helpers -/

theorem advance_turn_eq (e : PokerEngine) :
    ∃ i, advance_turn e = { e with current_actor_index := i } := by
  unfold advance_turn
  dsimp only
  split
  · exact ⟨e.current_actor_index, rfl⟩
  · split
    · exact ⟨_, rfl⟩
    · exact ⟨e.current_actor_index, rfl⟩

theorem find_player_index_lt (e : PokerEngine) (pid : String) (idx : Nat)
    (h : find_player_index e pid = some idx) : idx < e.players.length := by
  unfold find_player_index at h
  exact (List.findIdx?_eq_some_iff_findIdx_eq.mp h).1

theorem getD_mem_of_lt (ps : List PlayerState) (i : Nat) (h : i < ps.length) :
    ps.getD i default ∈ ps := by
  rw [List.getD_eq_getElem?_getD, List.getElem?_eq_getElem h]
  exact List.getElem_mem h

theorem mem_showdownActive_lt (e : PokerEngine) (i : Nat)
    (h : i ∈ showdownActive e) : i < e.players.length := by
  unfold showdownActive at h
  have := (List.mem_filter.mp h).1
  exact List.mem_range.mp this

theorem mem_showdownTied_lt (score : List String → List String → Nat)
    (e : PokerEngine) (i : Nat) (h : i ∈ showdownTied score e) :
    i < e.players.length := by
  unfold showdownTied at h
  obtain ⟨sp, hsp, rfl⟩ := List.mem_map.mp h
  have hs : sp ∈ showdownSorted score e := (List.mem_filter.mp hsp).1
  have : sp ∈ showdownScores score e := by
    unfold showdownSorted at hs
    exact List.mem_mergeSort.mp hs
  unfold showdownScores at this
  obtain ⟨j, hj, hjeq⟩ := List.mem_map.mp this
  have : sp.2 = j := by rw [← hjeq]
  rw [this]
  exact mem_showdownActive_lt e j hj

/-! ### Money conservation: `sum(stack) + total_pot` is invariant -/

theorem foldl_invariant {α β : Type} (P : β → Prop) (f : β → α → β) (l : List α)
    (hf : ∀ b a, P b → P (f b a)) (b : β) (hb : P b) : P (l.foldl f b) := by
  induction l generalizing b with
  | nil => exact hb
  | cons x xs ih => exact ih _ (hf b x hb)

theorem sumStacks_set_of_stack_eq (ps : List PlayerState) (i : Nat) (p : PlayerState)
    (hstack : p.stack = (ps.getD i default).stack) :
    sumStacks (ps.set i p) = sumStacks ps := by
  by_cases h : i < ps.length
  · rw [sumStacks_set _ _ _ h, hstack]; ring
  · rw [List.set_eq_of_length_le (Nat.le_of_not_lt h)]

theorem moneySum_commitPay (e : PokerEngine) (idx : Nat) (pay : Int)
    (h : idx < e.players.length) :
    moneySum (commitPay e idx pay) = moneySum e := by
  unfold commitPay moneySum
  dsimp only
  split
  · rw [sumStacks_set _ _ _ h]; dsimp only; ring
  · rw [sumStacks_set _ _ _ h]; dsimp only; ring

theorem length_foldl_addStack (t : List Nat) (ps : List PlayerState) (amt : Int) :
    (t.foldl (fun ps i => addStack ps i amt) ps).length = ps.length := by
  induction t generalizing ps with
  | nil => rfl
  | cons a t ih =>
    simp only [List.foldl_cons]
    rw [ih, length_addStack]

theorem sumStacks_foldl_addStack (t : List Nat) (ps : List PlayerState) (amt : Int)
    (hv : ∀ i ∈ t, i < ps.length) :
    sumStacks (t.foldl (fun ps i => addStack ps i amt) ps) =
      sumStacks ps + amt * t.length := by
  induction t generalizing ps with
  | nil => simp
  | cons a t ih =>
    simp only [List.foldl_cons, List.length_cons]
    rw [ih (addStack ps a amt) (fun i hi => by
      rw [length_addStack]; exact hv i (List.mem_cons_of_mem _ hi))]
    rw [sumStacks_addStack _ _ _ (hv a (List.mem_cons_self _ _))]
    push_cast
    ring

theorem moneySum_evaluate_and_distribute (score : List String → List String → Nat)
    (e : PokerEngine) :
    moneySum (evaluate_and_distribute score e) = moneySum e := by
  unfold evaluate_and_distribute
  split
  · rfl
  · rename_i w heq
    have hw : w < e.players.length := by
      apply mem_showdownActive_lt
      rw [heq]; exact List.mem_cons_self _ _
    unfold moneySum
    dsimp only
    rw [sumStacks_addStack _ _ _ hw]
    ring
  · rename_i h1 h2
    have hlen0 : 0 < e.players.length := by
      rcases hne : showdownActive e with _ | ⟨a, t⟩
      · exact absurd hne h1
      · exact Nat.lt_of_le_of_lt (Nat.zero_le a)
          (mem_showdownActive_lt e a (by rw [hne]; exact List.mem_cons_self _ _))
    have hv : ∀ i ∈ showdownTied score e, i < e.players.length :=
      fun i hi => mem_showdownTied_lt score e i hi
    unfold moneySum
    dsimp only
    set t := showdownTied score e with ht
    have hfold := sumStacks_foldl_addStack t e.players
      (e.total_pot / (t.length : Int)) hv
    rcases hcases : t with _ | ⟨a, t2⟩
    · -- tied empty: the fold adds nothing and the remainder is
      -- `pot % 0 = pot`, paid to index 0
      rw [hcases] at hfold
      simp only [List.foldl_nil, List.length_nil, List.headD_nil] at hfold ⊢
      rw [sumStacks_addStack _ _ _ hlen0]
      simp [Int.emod_zero]
    · rw [hcases] at hfold
      have hhead : (a :: t2).headD 0 = a := rfl
      rw [hhead]
      have hvfold : a < ((a :: t2).foldl (fun ps i => addStack ps i
          (e.total_pot / ((a :: t2).length : Int))) e.players).length := by
        rw [length_foldl_addStack]
        exact hv a (by rw [hcases]; exact List.mem_cons_self _ _)
      rw [sumStacks_addStack _ _ _ hvfold, hfold]
      rw [Int.mul_comm]
      have := Int.ediv_add_emod e.total_pot ((a :: t2).length : Int)
      omega

theorem moneySum_record_eta (e : PokerEngine) : moneySum e =
    sumStacks e.players + e.total_pot := rfl

theorem moneySum_applyActionCore (e : PokerEngine) (idx : Nat)
    (pid act : String) (amt : Int) (e1 : PokerEngine)
    (h : idx < e.players.length)
    (hok : applyActionCore e idx pid act amt = Except.ok e1) :
    moneySum e1 = moneySum e := by
  unfold applyActionCore at hok
  dsimp only at hok
  split at hok
  · -- fold
    injection hok with h1
    subst h1
    unfold moneySum
    dsimp only
    rw [sumStacks_set _ _ _ h]
    dsimp only
    ring
  · split at hok
    · -- call
      injection hok with h1
      subst h1
      exact moneySum_commitPay e idx _ h
    · split at hok
      · -- check
        injection hok with h1
        subst h1
        rfl
      · split at hok
        · -- bet
          split at hok
          · cases hok
          · injection hok with h1
            subst h1
            exact moneySum_commitPay e idx _ h
        · split at hok
          · -- raise
            split at hok
            · cases hok
            · injection hok with h1
              subst h1
              exact moneySum_commitPay e idx _ h
          · split at hok
            · -- allin
              injection hok with h1
              subst h1
              exact moneySum_commitPay e idx _ h
            · -- unreachable fall-through
              injection hok with h1
              subst h1
              rfl

theorem moneySum_advance_turn (e : PokerEngine) :
    moneySum (advance_turn e) = moneySum e := by
  obtain ⟨i, hi⟩ := advance_turn_eq e
  rw [hi]
  rfl

theorem moneySum_ffLoop (score : List String → List String → Nat)
    (fuel : Nat) (e : PokerEngine) :
    moneySum (ffLoop score fuel e) = moneySum e := by
  induction fuel generalizing e with
  | zero => rfl
  | succ n ih =>
    unfold ffLoop
    split
    · rfl
    · rfl
    · rfl
    · dsimp only
      split
      · rw [ih]; rfl
      · rw [ih]; rfl
      · exact moneySum_evaluate_and_distribute score _
      · rw [ih]; rfl

theorem moneySum_advance_phase (score : List String → List String → Nat)
    (e : PokerEngine) :
    moneySum (advance_phase score e) = moneySum e := by
  unfold advance_phase
  split
  · rfl
  · dsimp only
    split
    · exact moneySum_evaluate_and_distribute score _
    · split
      · rw [moneySum_ffLoop]
        split <;> rfl
      · split <;> rfl

theorem moneySum_apply_action (score : List String → List String → Nat)
    (e : PokerEngine) (pid act : String) (amt : Int) :
    moneySum (apply_action score e pid act amt).2 = moneySum e := by
  unfold apply_action
  dsimp only
  split
  · rfl
  · split
    · rfl
    · rename_i idx hfind
      have hlt : idx < e.players.length := find_player_index_lt e pid idx hfind
      split
      · rfl
      · split
        · rfl
        · split
          · rfl
          · rename_i e1 hok
            dsimp only
            split
            · rw [moneySum_advance_phase, moneySum_advance_turn]
              exact moneySum_applyActionCore e idx pid act amt e1 hlt hok
            · rw [moneySum_advance_turn]
              exact moneySum_applyActionCore e idx pid act amt e1 hlt hok

theorem sumStacks_map_of_stack_eq (ps : List PlayerState)
    (f : PlayerState → PlayerState) (hf : ∀ p, (f p).stack = p.stack) :
    sumStacks (ps.map f) = sumStacks ps := by
  unfold sumStacks
  rw [List.map_map]
  congr 1
  exact List.map_congr_left (fun p _ => hf p)

theorem dealOneCard_total_pot (n ds : Nat) (e : PokerEngine) (i : Nat) :
    (dealOneCard n ds e i).total_pot = e.total_pot := rfl

theorem dealOneCard_sumStacks (n ds : Nat) (e : PokerEngine) (i : Nat) :
    sumStacks (dealOneCard n ds e i).players = sumStacks e.players := by
  unfold dealOneCard
  dsimp only
  exact sumStacks_set_of_stack_eq _ _ _ rfl

theorem dealOneCard_length (n ds : Nat) (e : PokerEngine) (i : Nat) :
    (dealOneCard n ds e i).players.length = e.players.length := by
  unfold dealOneCard
  dsimp only
  exact List.length_set _ _ _

theorem dealHoleCards_invariant (P : PokerEngine → Prop) (e : PokerEngine)
    (ds : Nat) (hstep : ∀ b i, P b → P (dealOneCard e.players.length ds b i))
    (hb : P e) : P (dealHoleCards e ds) := by
  unfold dealHoleCards
  dsimp only
  apply foldl_invariant P
    (fun e2 _ => (List.range e.players.length).foldl
      (dealOneCard e.players.length ds) e2)
  · intro b a hbp
    apply foldl_invariant P (dealOneCard e.players.length ds)
    · intro b2 i hb2
      exact hstep b2 i hb2
    · exact hbp
  · exact hb

@[simp] theorem dealHoleCards_total_pot (e : PokerEngine) (ds : Nat) :
    (dealHoleCards e ds).total_pot = e.total_pot :=
  dealHoleCards_invariant (fun x => x.total_pot = e.total_pot) e ds
    (fun b i hb => by
      show (dealOneCard _ _ b i).total_pot = e.total_pot
      rw [dealOneCard_total_pot]; exact hb) rfl

@[simp] theorem dealHoleCards_sumStacks (e : PokerEngine) (ds : Nat) :
    sumStacks (dealHoleCards e ds).players = sumStacks e.players :=
  dealHoleCards_invariant (fun x => sumStacks x.players = sumStacks e.players)
    e ds (fun b i hb => by
      show sumStacks (dealOneCard _ _ b i).players = sumStacks e.players
      rw [dealOneCard_sumStacks]; exact hb) rfl

@[simp] theorem dealHoleCards_length (e : PokerEngine) (ds : Nat) :
    (dealHoleCards e ds).players.length = e.players.length :=
  dealHoleCards_invariant (fun x => x.players.length = e.players.length)
    e ds (fun b i hb => by
      show (dealOneCard _ _ b i).players.length = e.players.length
      rw [dealOneCard_length]; exact hb) rfl

@[simp] theorem post_blind_length (e : PokerEngine) (idx : Nat) (amount : Int)
    (label : String) :
    (post_blind e idx amount label).players.length = e.players.length := by
  unfold post_blind
  dsimp only
  split <;> exact List.length_set _ _ _

theorem post_blind_money (e : PokerEngine) (idx : Nat) (amount : Int)
    (label : String) (h : idx < e.players.length) :
    sumStacks (post_blind e idx amount label).players +
        (post_blind e idx amount label).total_pot =
      sumStacks e.players + e.total_pot := by
  unfold post_blind
  dsimp only
  split
  · rw [sumStacks_set _ _ _ h]; dsimp only; ring
  · rw [sumStacks_set _ _ _ h]; dsimp only; ring

theorem moneySum_start_hand (e : PokerEngine) (deck : List String)
    (hbtn : e.button_index < e.players.length) :
    moneySum (start_hand e deck) = sumStacks e.players := by
  have hn : 0 < e.players.length := Nat.lt_of_le_of_lt (Nat.zero_le _) hbtn
  unfold start_hand
  dsimp only
  split <;>
  · unfold moneySum
    dsimp only
    rw [dealHoleCards_sumStacks, dealHoleCards_total_pot]
    rw [post_blind_money _ _ _ _ (by
      rw [post_blind_length]
      dsimp only
      rw [List.length_map]
      exact Nat.mod_lt _ hn)]
    rw [post_blind_money _ _ _ _ (by
      dsimp only
      rw [List.length_map]
      exact hbtn)]
    dsimp only
    rw [sumStacks_map_of_stack_eq e.players
      (fun p => { p with hole_cards := [], committed := 0,
                         is_folded := false, is_all_in := false })
      (fun p => rfl)]
    ring

theorem moneySum_runActions (score : List String → List String → Nat)
    (reqs : List (String × String × Int)) (e : PokerEngine) :
    moneySum (runActions score reqs e) = moneySum e := by
  unfold runActions
  exact foldl_invariant (fun x => moneySum x = moneySum e) _ _
    (fun b r hb => by
      show moneySum (apply_action score b r.1 r.2.1 r.2.2).2 = moneySum e
      rw [moneySum_apply_action]; exact hb) e rfl

/-- **C1 (amended)** — the conserved quantity is `sum(stack) + total_pot`:
it is constant from the hand reset (before the blinds are posted) through
blind posting, every applied action, and the terminal distribution.
`sum(stack) + sum(committed) + total_pot` is not conserved, because every
chip moved into the pot is simultaneously recorded in `committed`, which is
never reset during the hand; in particular `sum(stack) + total_pot` before
blinds equals the same sum at hand completion, for any number of seats ≥ 2. -/
theorem money_conservation (score : List String → List String → Nat)
    (e : PokerEngine) (deck : List String) (reqs : List (String × String × Int))
    (hseats : 2 ≤ e.players.length)
    (hbtn : e.button_index < e.players.length) :
    moneySum (runActions score reqs (start_hand e deck)) = sumStacks e.players := by
  rw [moneySum_runActions, moneySum_start_hand e deck hbtn]

/-- Witness for the amended C1, on the concrete hand of `cReqs`. -/
theorem money_conservation_witness :
    2 ≤ cE0.players.length ∧ cE0.button_index < cE0.players.length ∧
      moneySum (runActions scoreZ cReqs (start_hand cE0 cDeck)) = sumStacks cE0.players :=
  ⟨by decide, by decide,
    money_conservation scoreZ cE0 cDeck cReqs (by decide) (by decide)⟩

/-! ### Claim C10: every successful call preserves `sum(stack) + total_pot` -/

/-- **C10** — a successful `apply_action` call (including one that
fast-forwards phases and runs showdown distribution) leaves
`sum(stack) + total_pot` exactly unchanged: `committed` only bookkeeps money
already counted inside `total_pot`. -/
theorem apply_action_preserves_stack_plus_pot
    (score : List String → List String → Nat) (e : PokerEngine)
    (pid act : String) (amt : Int) (ph : Option Phase) (pot : Int)
    (h : (apply_action score e pid act amt).1 = ApplyResult.ok ph pot) :
    moneySum (apply_action score e pid act amt).2 = moneySum e :=
  moneySum_apply_action score e pid act amt

/-- Witness for C10: seat 0 folding at `cE1` succeeds (the hand moves to the
flop) and conserves `sum(stack) + total_pot`. -/
theorem apply_action_preserves_stack_plus_pot_witness :
    (apply_action scoreZ cE1 "p0" "fold" 0).1 =
        ApplyResult.ok (some Phase.flop) 15 ∧
      moneySum (apply_action scoreZ cE1 "p0" "fold" 0).2 = moneySum cE1 :=
  ⟨by decide, apply_action_preserves_stack_plus_pot scoreZ cE1 "p0" "fold" 0
    (some Phase.flop) 15 (by decide)⟩

/-! ### Claim C3: the legal-action set -/

/-- **C3** — for a looked-up seat, the legal-action set is empty iff the seat
is folded, all-in, or the hand is COMPLETED; otherwise, with
`to_call = max(committed) - own committed`: if `to_call > 0` the set is
exactly fold, plus call iff `stack ≥ to_call`, plus raise iff
`stack > to_call`, plus allin iff `stack > 0` (check is never present); if
`to_call ≤ 0` the set is exactly check, plus bet and allin iff `stack > 0`. -/
theorem legal_actions_spec (e : PokerEngine) (pid : String) (idx : Nat)
    (p : PlayerState) (l : List String) (a : String)
    (hidx : find_player_index e pid = some idx)
    (hp : e.players.getD idx default = p)
    (hl : legal_actions e pid = some l) :
    a ∈ l ↔
      (¬(p.is_folded = true ∨ p.is_all_in = true ∨ e.phase = some Phase.completed) ∧
        ((maxCommitted e.players - p.committed > 0 ∧
           (a = "fold" ∨
            (a = "call" ∧ p.stack ≥ maxCommitted e.players - p.committed) ∨
            (a = "raise" ∧ p.stack > maxCommitted e.players - p.committed) ∨
            (a = "allin" ∧ p.stack > 0))) ∨
         (¬(maxCommitted e.players - p.committed > 0) ∧
           (a = "check" ∨ ((a = "bet" ∨ a = "allin") ∧ p.stack > 0))))) := by
  unfold legal_actions at hl
  rw [hidx] at hl
  simp only [Option.map_some', Option.some.injEq] at hl
  rw [hp] at hl
  subst hl
  unfold legalActionsOf
  by_cases h1 : (p.is_folded || p.is_all_in || e.phase == some Phase.completed) = true
  · rw [if_pos h1]
    have h1' : p.is_folded = true ∨ p.is_all_in = true ∨ e.phase = some Phase.completed := by
      have := h1
      simp only [Bool.or_eq_true, beq_iff_eq] at this
      tauto
    simp [h1']
  · rw [if_neg h1]
    have h1' : ¬(p.is_folded = true ∨ p.is_all_in = true ∨ e.phase = some Phase.completed) := by
      intro hc
      apply h1
      simp only [Bool.or_eq_true, beq_iff_eq]
      tauto
    dsimp only
    simp only [h1', not_false_iff, true_and]
    by_cases h2 : maxCommitted e.players - p.committed > 0
    · rw [if_pos h2]
      split_ifs <;>
        simp only [List.mem_append, List.mem_cons, List.not_mem_nil, or_false,
          and_true, and_false, false_or, true_and, false_and,
          iff_true, true_iff, not_true, not_false_iff, *] <;>
        tauto
    · rw [if_neg h2]
      split_ifs <;>
        simp only [List.mem_append, List.mem_cons, List.not_mem_nil, or_false,
          and_true, and_false, false_or, true_and, false_and,
          iff_true, true_iff, not_true, not_false_iff, *] <;>
        tauto

/-- Witness for C3: at `cE1` seat 0 owes 5 chips with a stack of 995, and
the resolver offers exactly fold/call/raise/allin; instantiating the
characterization shows "call" belongs to the set. -/
theorem legal_actions_spec_witness :
    "call" ∈ ["fold", "call", "raise", "allin"] :=
  (legal_actions_spec cE1 "p0" 0 (cE1.players.getD 0 default)
    ["fold", "call", "raise", "allin"] "call" (by decide) rfl (by decide)).mpr
    (by decide)

/-! ### Claim C4: stacks never go negative -/

/-- Every stack is nonnegative. -/
def StacksNonneg (ps : List PlayerState) : Prop := ∀ p ∈ ps, 0 ≤ p.stack

/-- The nonnegativity invariant carried through a hand: every stack and the
pot are nonnegative. -/
def MoneyNonneg (e : PokerEngine) : Prop :=
  StacksNonneg e.players ∧ 0 ≤ e.total_pot

theorem to_call_nonneg (ps : List PlayerState) (idx : Nat) (h : idx < ps.length) :
    0 ≤ maxCommitted ps - (ps.getD idx default).committed := by
  have := le_maxCommitted ps (ps.getD idx default) (getD_mem_of_lt ps idx h)
  omega

theorem stacksNonneg_set (ps : List PlayerState) (idx : Nat) (p : PlayerState)
    (hps : StacksNonneg ps) (hp : 0 ≤ p.stack) :
    StacksNonneg (ps.set idx p) := by
  intro q hq
  rcases List.mem_or_eq_of_mem_set hq with hq2 | rfl
  · exact hps q hq2
  · exact hp

theorem moneyNonneg_commitPay (e : PokerEngine) (idx : Nat) (pay : Int)
    (h : idx < e.players.length) (hinv : MoneyNonneg e)
    (hpay0 : 0 ≤ pay) (hpaystack : pay ≤ (e.players.getD idx default).stack) :
    MoneyNonneg (commitPay e idx pay) := by
  obtain ⟨hst, hpot⟩ := hinv
  unfold commitPay
  dsimp only
  constructor
  · split
    · exact stacksNonneg_set _ _ _ hst (by dsimp only; omega)
    · exact stacksNonneg_set _ _ _ hst (by dsimp only; omega)
  · split <;> (dsimp only; omega)

theorem stacksNonneg_addStack (ps : List PlayerState) (idx : Nat) (amt : Int)
    (hps : StacksNonneg ps) (hamt : 0 ≤ amt) :
    StacksNonneg (addStack ps idx amt) := by
  unfold addStack
  dsimp only
  by_cases h : idx < ps.length
  · exact stacksNonneg_set _ _ _ hps (by
      have := hps _ (getD_mem_of_lt ps idx h)
      show 0 ≤ (ps.getD idx default).stack + amt
      omega)
  · rw [List.set_eq_of_length_le (Nat.le_of_not_lt h)]
    exact hps

theorem moneyNonneg_evaluate_and_distribute
    (score : List String → List String → Nat) (e : PokerEngine)
    (hinv : MoneyNonneg e) :
    MoneyNonneg (evaluate_and_distribute score e) := by
  obtain ⟨hst, hpot⟩ := hinv
  unfold evaluate_and_distribute
  split
  · exact ⟨hst, hpot⟩
  · exact ⟨stacksNonneg_addStack _ _ _ hst hpot, le_refl 0⟩
  · refine ⟨?_, le_refl 0⟩
    have hshare : 0 ≤ e.total_pot / ((showdownTied score e).length : Int) :=
      Int.ediv_nonneg hpot (Int.natCast_nonneg _)
    have hrem : 0 ≤ e.total_pot % ((showdownTied score e).length : Int) := by
      rcases Nat.eq_zero_or_pos (showdownTied score e).length with hz | hp2
      · rw [hz]; simpa using hpot
      · exact Int.emod_nonneg e.total_pot (by
          simp only [ne_eq, Int.natCast_eq_zero]
          omega)
    apply stacksNonneg_addStack _ _ _ _ hrem
    apply foldl_invariant StacksNonneg
      (fun ps i => addStack ps i (e.total_pot / ((showdownTied score e).length : Int)))
    · intro b i hb
      exact stacksNonneg_addStack _ _ _ hb hshare
    · exact hst

theorem moneyNonneg_applyActionCore (e : PokerEngine) (idx : Nat)
    (pid act : String) (amt : Int) (e1 : PokerEngine)
    (h : idx < e.players.length) (hinv : MoneyNonneg e)
    (hok : applyActionCore e idx pid act amt = Except.ok e1) :
    MoneyNonneg e1 := by
  have htc := to_call_nonneg e.players idx h
  have hstk := hinv.1 _ (getD_mem_of_lt e.players idx h)
  unfold applyActionCore at hok
  dsimp only at hok
  split at hok
  · -- fold
    injection hok with h1
    subst h1
    exact ⟨stacksNonneg_set _ _ _ hinv.1 (by dsimp only; exact hstk), hinv.2⟩
  · split at hok
    · -- call
      injection hok with h1
      subst h1
      exact moneyNonneg_commitPay e idx _ h hinv
        (le_min hstk htc) (min_le_left _ _)
    · split at hok
      · -- check
        injection hok with h1
        subst h1
        exact hinv
      · split at hok
        · -- bet
          split at hok
          · cases hok
          · rename_i hguard
            injection hok with h1
            subst h1
            simp only [Bool.or_eq_true, not_or, decide_eq_true_eq] at hguard
            exact moneyNonneg_commitPay e idx _ h hinv (by omega) (by omega)
        · split at hok
          · -- raise
            split at hok
            · cases hok
            · rename_i hguard
              injection hok with h1
              subst h1
              simp only [Bool.or_eq_true, not_or, decide_eq_true_eq] at hguard
              exact moneyNonneg_commitPay e idx _ h hinv
                (le_min hstk (by omega)) (min_le_left _ _)
          · split at hok
            · -- allin
              injection hok with h1
              subst h1
              exact moneyNonneg_commitPay e idx _ h hinv hstk (le_refl _)
            · injection hok with h1
              subst h1
              exact hinv

theorem moneyNonneg_advance_turn (e : PokerEngine) (hinv : MoneyNonneg e) :
    MoneyNonneg (advance_turn e) := by
  obtain ⟨i, hi⟩ := advance_turn_eq e
  rw [hi]
  exact hinv

theorem moneyNonneg_ffLoop (score : List String → List String → Nat)
    (fuel : Nat) (e : PokerEngine) (hinv : MoneyNonneg e) :
    MoneyNonneg (ffLoop score fuel e) := by
  induction fuel generalizing e with
  | zero => exact hinv
  | succ n ih =>
    unfold ffLoop
    split
    · exact hinv
    · exact hinv
    · exact hinv
    · dsimp only
      split
      · exact ih _ hinv
      · exact ih _ hinv
      · exact moneyNonneg_evaluate_and_distribute score _ hinv
      · exact ih _ hinv

theorem moneyNonneg_advance_phase (score : List String → List String → Nat)
    (e : PokerEngine) (hinv : MoneyNonneg e) :
    MoneyNonneg (advance_phase score e) := by
  unfold advance_phase
  split
  · exact hinv
  · dsimp only
    split
    · exact moneyNonneg_evaluate_and_distribute score _ hinv
    · split
      · apply moneyNonneg_ffLoop
        split <;> exact hinv
      · split <;> exact hinv

theorem moneyNonneg_apply_action (score : List String → List String → Nat)
    (e : PokerEngine) (pid act : String) (amt : Int) (hinv : MoneyNonneg e) :
    MoneyNonneg (apply_action score e pid act amt).2 := by
  unfold apply_action
  dsimp only
  split
  · exact hinv
  · split
    · exact hinv
    · rename_i idx hfind
      have hlt : idx < e.players.length := find_player_index_lt e pid idx hfind
      split
      · exact hinv
      · split
        · exact hinv
        · split
          · exact hinv
          · rename_i e1 hok
            dsimp only
            have h1 := moneyNonneg_applyActionCore e idx pid act amt e1 hlt hinv hok
            split
            · exact moneyNonneg_advance_phase score _ (moneyNonneg_advance_turn _ h1)
            · exact moneyNonneg_advance_turn _ h1

theorem moneyNonneg_post_blind (e : PokerEngine) (idx : Nat) (amount : Int)
    (label : String) (h : idx < e.players.length) (hinv : MoneyNonneg e)
    (hamt : 0 ≤ amount) : MoneyNonneg (post_blind e idx amount label) := by
  obtain ⟨hst, hpot⟩ := hinv
  have hstk := hst _ (getD_mem_of_lt e.players idx h)
  have hmin1 : min (e.players.getD idx default).stack amount ≤
      (e.players.getD idx default).stack := min_le_left _ _
  have hmin0 : 0 ≤ min (e.players.getD idx default).stack amount :=
    le_min hstk hamt
  unfold post_blind
  dsimp only
  constructor
  · split
    · apply stacksNonneg_set _ _ _ hst
      show 0 ≤ (e.players.getD idx default).stack -
        min (e.players.getD idx default).stack amount
      omega
    · apply stacksNonneg_set _ _ _ hst
      show 0 ≤ (e.players.getD idx default).stack -
        min (e.players.getD idx default).stack amount
      omega
  · show 0 ≤ e.total_pot + min (e.players.getD idx default).stack amount
    omega

theorem moneyNonneg_dealHoleCards (e : PokerEngine) (ds : Nat)
    (hinv : MoneyNonneg e) : MoneyNonneg (dealHoleCards e ds) := by
  apply dealHoleCards_invariant MoneyNonneg e ds
  · intro b i hb
    show MoneyNonneg (dealOneCard e.players.length ds b i)
    unfold dealOneCard
    dsimp only
    refine ⟨?_, hb.2⟩
    apply stacksNonneg_set _ _ _ hb.1
    show 0 ≤ (b.players.getD ((ds + i) % e.players.length) default).stack
    by_cases hv : (ds + i) % e.players.length < b.players.length
    · exact hb.1 _ (getD_mem_of_lt _ _ hv)
    · rw [List.getD_eq_getElem?_getD, List.getElem?_eq_none (Nat.le_of_not_lt hv)]
      exact le_refl 0
  · exact hinv

theorem moneyNonneg_start_hand (e : PokerEngine) (deck : List String)
    (hst : StacksNonneg e.players) (hsb : 0 ≤ e.small_blind)
    (hbb : 0 ≤ e.big_blind) (hbtn : e.button_index < e.players.length) :
    MoneyNonneg (start_hand e deck) := by
  have hn : 0 < e.players.length := Nat.lt_of_le_of_lt (Nat.zero_le _) hbtn
  unfold start_hand
  dsimp only
  have h0 : MoneyNonneg
      { e with deck := deck, community_cards := [], total_pot := 0,
               actions := [], pot_history := [],
               players := e.players.map (fun p =>
                 { p with hole_cards := [], committed := 0,
                          is_folded := false, is_all_in := false }) } := by
    refine ⟨?_, le_refl 0⟩
    intro p hp
    obtain ⟨q, hq, rfl⟩ := List.mem_map.mp hp
    exact hst q hq
  split <;>
  · refine moneyNonneg_dealHoleCards _ _ ?_
    refine moneyNonneg_post_blind _ _ _ _ ?_ ?_ hbb
    · rw [post_blind_length]
      dsimp only
      simp only [List.length_map]
      exact Nat.mod_lt _ hn
    · refine moneyNonneg_post_blind _ _ _ _ ?_ h0 hsb
      dsimp only
      simp only [List.length_map]
      exact hbtn

theorem moneyNonneg_runActions (score : List String → List String → Nat)
    (reqs : List (String × String × Int)) (e : PokerEngine)
    (hinv : MoneyNonneg e) : MoneyNonneg (runActions score reqs e) := by
  unfold runActions
  exact foldl_invariant MoneyNonneg _ _
    (fun b r hb => by
      show MoneyNonneg (apply_action score b r.1 r.2.1 r.2.2).2
      exact moneyNonneg_apply_action score b r.1 r.2.1 r.2.2 hb) e hinv

/-- A bet or raise request exceeding the seat's stack is always rejected
with an error and no state change. -/
theorem overdraw_rejected (score : List String → List String → Nat)
    (e : PokerEngine) (pid : String) (idx : Nat) (amt : Int) (act : String)
    (hact : act = "bet" ∨ act = "raise")
    (hidx : find_player_index e pid = some idx)
    (hover : (e.players.getD idx default).stack < amt) :
    ∃ msg, apply_action score e pid act amt = (ApplyResult.error msg, e) := by
  unfold apply_action
  split
  · exact ⟨"No active hand", rfl⟩
  · rw [hidx]
    dsimp only
    split
    · exact ⟨"Player cannot act", rfl⟩
    · split
      · exact ⟨"Illegal action", rfl⟩
      · rcases hact with rfl | rfl
        · have hcore : applyActionCore e idx pid "bet" amt =
              Except.error "Invalid bet amount" := by
            unfold applyActionCore
            dsimp only
            rw [if_neg (by decide), if_neg (by decide), if_neg (by decide),
              if_pos (by decide)]
            rw [if_pos (by simp only [Bool.or_eq_true, decide_eq_true_eq]; omega)]
          rw [hcore]
          exact ⟨"Invalid bet amount", rfl⟩
        · have hcore : applyActionCore e idx pid "raise" amt =
              Except.error "Invalid raise amount" := by
            unfold applyActionCore
            dsimp only
            rw [if_neg (by decide), if_neg (by decide), if_neg (by decide),
              if_neg (by decide), if_pos (by decide)]
            rw [if_pos (by simp only [Bool.or_eq_true, decide_eq_true_eq]; omega)]
          rw [hcore]
          exact ⟨"Invalid raise amount", rfl⟩

/-- **C4** — starting from nonnegative stacks with nonnegative blinds, every
state reached by `start_hand` followed by any sequence of `apply_action`
requests has every stack ≥ 0; and any single bet/raise request that would
drive a stack negative (amount exceeding the stack) is rejected with an
error before any mutation. -/
theorem no_negative_stacks (score : List String → List String → Nat)
    (e : PokerEngine) (deck : List String)
    (hst : StacksNonneg e.players) (hsb : 0 ≤ e.small_blind)
    (hbb : 0 ≤ e.big_blind) (hbtn : e.button_index < e.players.length) :
    (∀ reqs, StacksNonneg (runActions score reqs (start_hand e deck)).players) ∧
    (∀ (e2 : PokerEngine) (pid : String) (idx : Nat) (amt : Int) (act : String),
      (act = "bet" ∨ act = "raise") →
      find_player_index e2 pid = some idx →
      (e2.players.getD idx default).stack < amt →
      ∃ msg, apply_action score e2 pid act amt = (ApplyResult.error msg, e2)) := by
  constructor
  · intro reqs
    exact (moneyNonneg_runActions score reqs _
      (moneyNonneg_start_hand e deck hst hsb hbb hbtn)).1
  · intro e2 pid idx amt act hact hidx hover
    exact overdraw_rejected score e2 pid idx amt act hact hidx hover

/-- Witness for C4: after the concrete hand `cReqs`, seat 0 still has a
nonnegative stack, and a 9999-chip raise by seat 0 at `cE1` (stack 995) is
rejected without mutation. -/
theorem no_negative_stacks_witness :
    0 ≤ ((runActions scoreZ cReqs (start_hand cE0 cDeck)).players.getD 0 default).stack ∧
      (apply_action scoreZ cE1 "p0" "raise" 9999).2 = cE1 := by
  have h := no_negative_stacks scoreZ cE0 cDeck
    (by unfold StacksNonneg; decide) (by decide) (by decide) (by decide)
  constructor
  · exact h.1 cReqs _ (by decide)
  · obtain ⟨msg, hmsg⟩ := h.2 cE1 "p0" 0 9999 "raise" (Or.inr rfl)
      (by decide) (by decide)
    rw [hmsg]

/-! ### Claim C7: raise semantics -/

theorem advance_turn_actions (e : PokerEngine) :
    (advance_turn e).actions = e.actions := by
  obtain ⟨i, hi⟩ := advance_turn_eq e
  rw [hi]

theorem evaluate_and_distribute_actions (score : List String → List String → Nat)
    (e : PokerEngine) :
    (evaluate_and_distribute score e).actions = e.actions := by
  unfold evaluate_and_distribute
  split <;> rfl

theorem ffLoop_actions (score : List String → List String → Nat)
    (fuel : Nat) (e : PokerEngine) :
    (ffLoop score fuel e).actions = e.actions := by
  induction fuel generalizing e with
  | zero => rfl
  | succ n ih =>
    unfold ffLoop
    split
    · rfl
    · rfl
    · rfl
    · dsimp only
      split
      · rw [ih]; rfl
      · rw [ih]; rfl
      · exact evaluate_and_distribute_actions score _
      · rw [ih]

theorem advance_phase_actions (score : List String → List String → Nat)
    (e : PokerEngine) :
    (advance_phase score e).actions = e.actions := by
  unfold advance_phase
  split
  · rfl
  · dsimp only
    split
    · exact evaluate_and_distribute_actions score _
    · split
      · rw [ffLoop_actions]
        split <;> rfl
      · split <;> rfl

/-- **C7** — with the raise action available to a live seat, `apply_action`
with action `"raise"` errors exactly when `amount ≤ 0` or `amount > stack`
(it never errors on an over-large total: the payment is capped); a valid
raise moves `pay = min(stack, to_call + amount)` from the seat's stack into
`committed` and the pot (the amount parameter is the increment above the
call), marks the seat all-in exactly when its stack reaches 0, and the
appended action record carries `pay`, the amount actually moved. -/
theorem raise_semantics (score : List String → List String → Nat)
    (e : PokerEngine) (pid : String) (amt : Int) (idx : Nat) (p : PlayerState)
    (hph : ¬(e.phase = none ∨ e.phase = some Phase.completed))
    (hidx : find_player_index e pid = some idx)
    (hp : e.players.getD idx default = p)
    (hfold : p.is_folded = false) (hallin : p.is_all_in = false)
    (hlegal : "raise" ∈ legalActionsOf e.phase e.players p) :
    ((∃ msg, (apply_action score e pid "raise" amt).1 = ApplyResult.error msg) ↔
      (amt ≤ 0 ∨ amt > p.stack)) ∧
    (0 < amt → amt ≤ p.stack →
      ∃ e1, applyActionCore e idx pid "raise" amt = Except.ok e1 ∧
        (e1.players.getD idx default).stack =
          p.stack - min p.stack (maxCommitted e.players - p.committed + amt) ∧
        (e1.players.getD idx default).committed =
          p.committed + min p.stack (maxCommitted e.players - p.committed + amt) ∧
        ((e1.players.getD idx default).is_all_in = true ↔
          p.stack - min p.stack (maxCommitted e.players - p.committed + amt) = 0) ∧
        e1.total_pot = e.total_pot +
          min p.stack (maxCommitted e.players - p.committed + amt) ∧
        e1.actions = e.actions ++
          [⟨pid, "raise", min p.stack (maxCommitted e.players - p.committed + amt)⟩] ∧
        (apply_action score e pid "raise" amt).2.actions = e.actions ++
          [⟨pid, "raise", min p.stack (maxCommitted e.players - p.committed + amt)⟩]) := by
  have hlt : idx < e.players.length := find_player_index_lt e pid idx hidx
  have hphase : (e.phase == none || e.phase == some Phase.completed) = false := by
    push_neg at hph
    simp [hph.1, hph.2]
  have hcontains : ((legalActionsOf e.phase e.players p).contains "raise") = true := by
    have := List.elem_eq_true_of_mem hlegal
    exact this
  -- the shape of the core on a raise request
  have hcore : ∀ amt2 : Int, applyActionCore e idx pid "raise" amt2 =
      (if amt2 ≤ 0 || amt2 > p.stack then Except.error "Invalid raise amount"
       else
        .ok { commitPay e idx (min p.stack (maxCommitted e.players - p.committed + amt2)) with
              actions := e.actions ++ [⟨pid, "raise",
                min p.stack (maxCommitted e.players - p.committed + amt2)⟩] }) := by
    intro amt2
    unfold applyActionCore
    dsimp only
    rw [hp]
    rw [if_neg (by decide), if_neg (by decide), if_neg (by decide),
      if_neg (by decide), if_pos (by decide)]
  constructor
  · constructor
    · -- an error result forces a bad amount
      intro ⟨msg, hmsg⟩
      by_cases hbad : amt ≤ 0 ∨ amt > p.stack
      · exact hbad
      · exfalso
        push_neg at hbad
        unfold apply_action at hmsg
        rw [if_neg (by simp [hphase])] at hmsg
        rw [hidx] at hmsg
        dsimp only at hmsg
        rw [hp] at hmsg
        rw [if_neg (by simp [hfold, hallin])] at hmsg
        rw [if_neg (by simp only [hcontains]; decide)] at hmsg
        rw [hcore amt] at hmsg
        rw [if_neg (by
          simp only [Bool.or_eq_true, decide_eq_true_eq]
          omega)] at hmsg
        dsimp only at hmsg
        split at hmsg <;> cases hmsg
    · -- a bad amount is rejected
      intro hbad
      refine ⟨"Invalid raise amount", ?_⟩
      unfold apply_action
      rw [if_neg (by simp [hphase])]
      rw [hidx]
      dsimp only
      rw [hp]
      rw [if_neg (by simp [hfold, hallin])]
      rw [if_neg (by simp only [hcontains]; decide)]
      rw [hcore amt]
      rw [if_pos (by
        simp only [Bool.or_eq_true, decide_eq_true_eq]
        omega)]
  · intro hpos hle
    refine ⟨_, by
      rw [hcore amt]
      rw [if_neg (by
        simp only [Bool.or_eq_true, decide_eq_true_eq]
        omega)], ?_, ?_, ?_, ?_, ?_, ?_⟩
    · show ((commitPay e idx _).players.getD idx default).stack = _
      unfold commitPay
      dsimp only
      rw [hp]
      split <;>
      · rw [List.getD_eq_getElem?_getD, List.getElem?_set_self (by simpa using hlt)]
        rfl
    · show ((commitPay e idx _).players.getD idx default).committed = _
      unfold commitPay
      dsimp only
      rw [hp]
      split <;>
      · rw [List.getD_eq_getElem?_getD, List.getElem?_set_self (by simpa using hlt)]
        rfl
    · show ((commitPay e idx _).players.getD idx default).is_all_in = true ↔ _
      unfold commitPay
      dsimp only
      rw [hp]
      split
      · rename_i hz
        rw [List.getD_eq_getElem?_getD, List.getElem?_set_self (by simpa using hlt)]
        simp only [Option.getD_some]
        simpa using hz
      · rename_i hz
        rw [List.getD_eq_getElem?_getD, List.getElem?_set_self (by simpa using hlt)]
        simp only [Option.getD_some]
        constructor
        · intro hc
          rw [hallin] at hc
          cases hc
        · intro hc
          exfalso
          apply hz
          simpa using hc
    · rfl
    · rfl
    · -- the action log of the final state
      unfold apply_action
      rw [if_neg (by simp [hphase])]
      rw [hidx]
      dsimp only
      rw [hp]
      rw [if_neg (by simp [hfold, hallin])]
      rw [if_neg (by simp only [hcontains]; decide)]
      rw [hcore amt]
      rw [if_neg (by
        simp only [Bool.or_eq_true, decide_eq_true_eq]
        omega)]
      dsimp only
      split
      · rw [advance_phase_actions, advance_turn_actions]
      · rw [advance_turn_actions]

/-- Witness for C7: at `cE1` seat 0 (stack 995, to_call 5) raising by 100 is
valid, and the logged record carries the amount actually moved,
`min(stack, to_call + 100)`. -/
theorem raise_semantics_witness :
    (apply_action scoreZ cE1 "p0" "raise" 100).2.actions = cE1.actions ++
      [⟨"p0", "raise", min (cE1.players.getD 0 default).stack
        (maxCommitted cE1.players - (cE1.players.getD 0 default).committed + 100)⟩] := by
  obtain ⟨e1, hok, h1, h2, h3, h4, h5, h6⟩ :=
    (raise_semantics scoreZ cE1 "p0" 100 0 (cE1.players.getD 0 default)
      (by decide) (by decide) rfl (by decide) (by decide) (by decide)).2
      (by decide) (by decide)
  exact h6

/-! ### Claim C6: fast-forward deals the same cards as the step-by-step path -/

theorem burnAndReveal_community (e : PokerEngine) (k : Nat) :
    (burnAndReveal e k).community_cards =
      e.community_cards ++ (e.deck.drop 1).take k := by
  unfold burnAndReveal
  dsimp only
  rw [List.drop_one]

theorem burnAndReveal_deck (e : PokerEngine) (k : Nat) :
    (burnAndReveal e k).deck = e.deck.drop (1 + k) := by
  unfold burnAndReveal
  dsimp only
  rw [← List.drop_one, List.drop_drop]

theorem evaluate_and_distribute_community (score : List String → List String → Nat)
    (e : PokerEngine) :
    (evaluate_and_distribute score e).community_cards = e.community_cards := by
  unfold evaluate_and_distribute
  split <;> rfl

theorem evaluate_and_distribute_pot_zero (score : List String → List String → Nat)
    (e : PokerEngine) (h : showdownActive e ≠ []) :
    (evaluate_and_distribute score e).total_pot = 0 := by
  unfold evaluate_and_distribute
  split
  · rename_i heq
    exact absurd heq h
  · rfl
  · rfl

theorem showdownActive_ne_nil (e : PokerEngine)
    (h : e.players.filter (fun p => !p.is_folded) ≠ []) :
    showdownActive e ≠ [] := by
  obtain ⟨q, hq⟩ := List.exists_mem_of_ne_nil _ h
  have hq2 := List.mem_filter.mp hq
  obtain ⟨i, hi, hgi⟩ := List.getElem_of_mem hq2.1
  intro hnil
  have : i ∈ showdownActive e := by
    unfold showdownActive
    rw [List.mem_filter]
    refine ⟨List.mem_range.mpr hi, ?_⟩
    rw [List.getD_eq_getElem?_getD, List.getElem?_eq_getElem hi]
    simpa [hgi] using hq2.2
  rw [hnil] at this
  cases this

/-- Entering the flop with no seat able to act starts the fast-forward loop. -/
theorem advance_phase_preflop_ff (score : List String → List String → Nat)
    (e : PokerEngine) (h : e.phase = some Phase.preflop)
    (hact : e.players.filter (fun p => !p.is_folded && !p.is_all_in) = []) :
    advance_phase score e =
      ffLoop score 5 (burnAndReveal { e with phase := some Phase.flop } 3) := by
  unfold advance_phase
  rw [h]
  dsimp only [Phase.next]
  rw [if_neg (by decide)]
  rw [if_pos ?hc]
  case hc =>
    rw [show (burnAndReveal { e with phase := some Phase.flop } 3).players =
      e.players from rfl]
    rw [hact]
    decide

/-- One fast-forward iteration from the flop: deal the turn. -/
theorem ffLoop_step_turn (score : List String → List String → Nat)
    (fuel : Nat) (e : PokerEngine) (h : e.phase = some Phase.flop) :
    ffLoop score (fuel + 1) e =
      ffLoop score fuel (burnAndReveal { e with phase := some Phase.turn } 1) := by
  conv_lhs => unfold ffLoop
  rw [h]
  dsimp only [Phase.next]

/-- One fast-forward iteration from the turn: deal the river. -/
theorem ffLoop_step_river (score : List String → List String → Nat)
    (fuel : Nat) (e : PokerEngine) (h : e.phase = some Phase.turn) :
    ffLoop score (fuel + 1) e =
      ffLoop score fuel (burnAndReveal { e with phase := some Phase.river } 1) := by
  conv_lhs => unfold ffLoop
  rw [h]
  dsimp only [Phase.next]

/-- The last fast-forward iteration: showdown distribution, then COMPLETED. -/
theorem ffLoop_step_showdown (score : List String → List String → Nat)
    (fuel : Nat) (e : PokerEngine) (h : e.phase = some Phase.river) :
    ffLoop score (fuel + 1) e =
      { evaluate_and_distribute score { e with phase := some Phase.showdown } with
        phase := some Phase.completed } := by
  conv_lhs => unfold ffLoop
  rw [h]
  dsimp only [Phase.next]

/-- A normal (not fast-forwarded) flop transition. -/
theorem advance_phase_flop_step (score : List String → List String → Nat)
    (e : PokerEngine) (h : e.phase = some Phase.preflop)
    (hact : e.players.filter (fun p => !p.is_folded && !p.is_all_in) ≠ []) :
    advance_phase score e = burnAndReveal { e with phase := some Phase.flop } 3 := by
  unfold advance_phase
  rw [h]
  dsimp only [Phase.next]
  rw [if_neg (by decide)]
  rw [if_neg ?hc]
  case hc =>
    rw [show (burnAndReveal { e with phase := some Phase.flop } 3).players =
      e.players from rfl]
    simp only [beq_iff_eq, List.length_eq_zero]
    exact hact

/-- A normal turn transition. -/
theorem advance_phase_turn_step (score : List String → List String → Nat)
    (e : PokerEngine) (h : e.phase = some Phase.flop)
    (hact : e.players.filter (fun p => !p.is_folded && !p.is_all_in) ≠ []) :
    advance_phase score e = burnAndReveal { e with phase := some Phase.turn } 1 := by
  unfold advance_phase
  rw [h]
  dsimp only [Phase.next]
  rw [if_neg (by decide)]
  rw [if_neg ?hc]
  case hc =>
    rw [show (burnAndReveal { e with phase := some Phase.turn } 1).players =
      e.players from rfl]
    simp only [beq_iff_eq, List.length_eq_zero]
    exact hact

/-- A normal river transition. -/
theorem advance_phase_river_step (score : List String → List String → Nat)
    (e : PokerEngine) (h : e.phase = some Phase.turn)
    (hact : e.players.filter (fun p => !p.is_folded && !p.is_all_in) ≠ []) :
    advance_phase score e = burnAndReveal { e with phase := some Phase.river } 1 := by
  unfold advance_phase
  rw [h]
  dsimp only [Phase.next]
  rw [if_neg (by decide)]
  rw [if_neg ?hc]
  case hc =>
    rw [show (burnAndReveal { e with phase := some Phase.river } 1).players =
      e.players from rfl]
    simp only [beq_iff_eq, List.length_eq_zero]
    exact hact

/-- **C6** — when a betting round completes with zero seats able to act at
PRE_FLOP, `_advance_phase` fast-forwards to COMPLETED, dealing exactly 5
community cards (3 entering FLOP, 1 entering TURN, 1 entering RIVER, each
batch after one burn: deck positions 1-3, 5 and 7), running distribution
(the pot is zeroed), and revealing exactly the cards the step-by-step path
(three ordinary phase advances with seats still able to act) deals from the
same deck. -/
theorem fast_forward_dealing (score : List String → List String → Nat)
    (e f : PokerEngine)
    (hph : e.phase = some Phase.preflop)
    (hactive : e.players.filter (fun p => !p.is_folded && !p.is_all_in) = [])
    (hcom : e.community_cards = [])
    (hdeck : 8 ≤ e.deck.length)
    (hunfolded : e.players.filter (fun p => !p.is_folded) ≠ [])
    (hfph : f.phase = some Phase.preflop)
    (hfcom : f.community_cards = [])
    (hfdeck : f.deck = e.deck)
    (hfactive : f.players.filter (fun p => !p.is_folded && !p.is_all_in) ≠ []) :
    (advance_phase score e).phase = some Phase.completed ∧
    (advance_phase score e).community_cards =
      (e.deck.drop 1).take 3 ++ (e.deck.drop 5).take 1 ++ (e.deck.drop 7).take 1 ∧
    (advance_phase score e).community_cards.length = 5 ∧
    (advance_phase score e).total_pot = 0 ∧
    (advance_phase score (advance_phase score (advance_phase score f))).community_cards =
      (advance_phase score e).community_cards := by
  -- the fast-forward chain
  have h1 := advance_phase_preflop_ff score e hph hactive
  set e2 : PokerEngine := burnAndReveal { e with phase := some Phase.flop } 3 with he2
  have h2 : ffLoop score 5 e2 =
      ffLoop score 4 (burnAndReveal { e2 with phase := some Phase.turn } 1) :=
    ffLoop_step_turn score 4 e2 rfl
  set e3 : PokerEngine := burnAndReveal { e2 with phase := some Phase.turn } 1 with he3
  have h3 : ffLoop score 4 e3 =
      ffLoop score 3 (burnAndReveal { e3 with phase := some Phase.river } 1) :=
    ffLoop_step_river score 3 e3 rfl
  set e4 : PokerEngine := burnAndReveal { e3 with phase := some Phase.river } 1 with he4
  have h4 : ffLoop score 3 e4 =
      { evaluate_and_distribute score { e4 with phase := some Phase.showdown } with
        phase := some Phase.completed } :=
    ffLoop_step_showdown score 2 e4 rfl
  have hff : advance_phase score e =
      { evaluate_and_distribute score { e4 with phase := some Phase.showdown } with
        phase := some Phase.completed } := by
    rw [h1, h2, h3, h4]
  -- the community cards accumulated by the chain
  have hcomm4 : e4.community_cards =
      (e.deck.drop 1).take 3 ++ (e.deck.drop 5).take 1 ++ (e.deck.drop 7).take 1 := by
    rw [he4, he3, he2]
    simp only [burnAndReveal_community, burnAndReveal_deck]
    rw [hcom]
    simp [List.drop_drop]
  have hcommff : (advance_phase score e).community_cards = e4.community_cards := by
    rw [hff]
    show (evaluate_and_distribute score { e4 with phase := some Phase.showdown }).community_cards = _
    rw [evaluate_and_distribute_community]
  refine ⟨?_, ?_, ?_, ?_, ?_⟩
  · rw [hff]
  · rw [hcommff, hcomm4]
  · rw [hcommff, hcomm4]
    simp only [List.length_append, List.length_take, List.length_drop]
    omega
  · rw [hff]
    show (evaluate_and_distribute score { e4 with phase := some Phase.showdown }).total_pot = 0
    apply evaluate_and_distribute_pot_zero
    apply showdownActive_ne_nil
    show e.players.filter (fun p => !p.is_folded) ≠ []
    exact hunfolded
  · -- the step-by-step path deals the same cards
    have s1 := advance_phase_flop_step score f hfph hfactive
    set f2 : PokerEngine := burnAndReveal { f with phase := some Phase.flop } 3 with hf2
    have s2 : advance_phase score f2 =
        burnAndReveal { f2 with phase := some Phase.turn } 1 :=
      advance_phase_turn_step score f2 rfl hfactive
    set f3 : PokerEngine := burnAndReveal { f2 with phase := some Phase.turn } 1 with hf3
    have s3 : advance_phase score f3 =
        burnAndReveal { f3 with phase := some Phase.river } 1 :=
      advance_phase_river_step score f3 rfl hfactive
    rw [s1, s2, s3, hcommff, hcomm4]
    rw [hf3, hf2]
    simp only [burnAndReveal_community, burnAndReveal_deck]
    rw [hfcom, hfdeck]
    simp [List.drop_drop]

/-- Witness for C6: both seats all-in preflop on a concrete deck; the
hypotheses hold by computation. -/
theorem fast_forward_dealing_witness :
    (advance_phase scoreZ cFF).phase = some Phase.completed ∧
      (advance_phase scoreZ cFF).community_cards.length = 5 := by
  have h := fast_forward_dealing scoreZ cFF cFFStep (by decide) (by decide)
    (by decide) (by decide) (by decide) (by decide) (by decide) (by decide)
    (by decide)
  exact ⟨h.1, h.2.2.1⟩

/-! ### Claim C8: tie distribution -/

theorem pairLe_trans (a b c : Nat × Nat) (hab : decide (a.1 ≤ b.1) = true)
    (hbc : decide (b.1 ≤ c.1) = true) : decide (a.1 ≤ c.1) = true := by
  simp only [decide_eq_true_eq] at *
  omega

theorem pairLe_total (a b : Nat × Nat) :
    (decide (a.1 ≤ b.1) || decide (b.1 ≤ a.1)) = true := by
  rcases Nat.le_total a.1 b.1 with h | h <;> simp [h]

/-- Stability: the source's `tied` list (prefix of the stable sort achieving
the best score) is exactly the seat-ordered co-winner list. -/
theorem showdownTied_eq (score : List String → List String → Nat)
    (e : PokerEngine) :
    showdownTied score e = showdownWinners score e := by
  have hcall : ∀ sp ∈ (showdownScores score e).filter
      (fun sp => sp.1 == showdownBest score e),
      (fun sp : Nat × Nat => sp.1 == showdownBest score e) sp = true :=
    fun sp h => (List.mem_filter.mp h).2
  have hcpair : ((showdownScores score e).filter
      (fun sp => sp.1 == showdownBest score e)).Pairwise
      (fun a b => decide (a.1 ≤ b.1) = true) := by
    apply List.pairwise_of_forall_mem_list
    intro a ha b hb
    have ha2 := (List.mem_filter.mp ha).2
    have hb2 := (List.mem_filter.mp hb).2
    simp only [beq_iff_eq] at ha2 hb2
    simp [ha2, hb2]
  have hsub : List.Sublist
      ((showdownScores score e).filter (fun sp => sp.1 == showdownBest score e))
      ((showdownScores score e).mergeSort (fun a b => decide (a.1 ≤ b.1))) :=
    List.sublist_mergeSort pairLe_trans pairLe_total hcpair
      (List.filter_sublist (showdownScores score e))
  have hidem := List.filter_eq_self.mpr hcall
  have hfsub := hsub.filter (fun sp => sp.1 == showdownBest score e)
  rw [hidem] at hfsub
  have hperm := (List.mergeSort_perm (showdownScores score e)
    (fun a b => decide (a.1 ≤ b.1))).filter
    (fun sp => sp.1 == showdownBest score e)
  have heq := hfsub.eq_of_length hperm.length_eq.symm
  unfold showdownTied showdownSorted
  rw [← heq]
  unfold showdownScores
  rw [List.filter_map, List.map_map]
  unfold showdownWinners
  simp only [Function.comp_def]
  simp

/-- The head of the sorted score list is minimal: every unfolded seat scores
at least `showdownBest`. -/
theorem showdownBest_min (score : List String → List String → Nat)
    (e : PokerEngine) (sp : Nat × Nat) (hsp : sp ∈ showdownScores score e) :
    showdownBest score e ≤ sp.1 := by
  have hmem : sp ∈ showdownSorted score e := by
    unfold showdownSorted
    exact List.mem_mergeSort.mpr hsp
  have hsorted : (showdownSorted score e).Pairwise
      (fun a b => decide (a.1 ≤ b.1) = true) := by
    unfold showdownSorted
    exact List.sorted_mergeSort pairLe_trans pairLe_total _
  cases hh : showdownSorted score e with
  | nil =>
    rw [hh] at hmem
    cases hmem
  | cons h0 t =>
    unfold showdownBest
    rw [hh]
    dsimp only [List.headD_cons]
    rw [hh] at hmem hsorted
    rcases List.mem_cons.mp hmem with rfl | hmem2
    · exact Nat.le_refl _
    · have := List.rel_of_pairwise_cons hsorted hmem2
      simpa using this

/-- The best score is attained by some unfolded seat. -/
theorem showdownBest_attained (score : List String → List String → Nat)
    (e : PokerEngine) (hne : showdownScores score e ≠ []) :
    ∃ sp ∈ showdownScores score e, sp.1 = showdownBest score e := by
  cases hh : showdownSorted score e with
  | nil =>
    exfalso
    apply hne
    have : (showdownSorted score e).length = (showdownScores score e).length := by
      unfold showdownSorted
      exact List.length_mergeSort _
    rw [hh] at this
    exact List.length_eq_zero.mp this.symm
  | cons h0 t =>
    refine ⟨h0, ?_, ?_⟩
    · have : h0 ∈ showdownSorted score e := by
        rw [hh]
        exact List.mem_cons_self _ _
      unfold showdownSorted at this
      exact List.mem_mergeSort.mp this
    · unfold showdownBest
      rw [hh]
      rfl

theorem getD_addStack_self (ps : List PlayerState) (i : Nat) (amt : Int)
    (hi : i < ps.length) :
    (addStack ps i amt).getD i default =
      { ps.getD i default with stack := (ps.getD i default).stack + amt } := by
  unfold addStack
  dsimp only
  rw [List.getD_eq_getElem?_getD, List.getElem?_set_self hi]
  rfl

theorem getD_addStack_ne (ps : List PlayerState) (i j : Nat) (amt : Int)
    (hij : i ≠ j) :
    (addStack ps i amt).getD j default = ps.getD j default := by
  unfold addStack
  dsimp only
  rw [List.getD_eq_getElem?_getD, List.getElem?_set_ne hij,
    ← List.getD_eq_getElem?_getD]

/-- Folding `addStack` over a duplicate-free index list adds `amt` exactly to
the listed seats. -/
theorem getD_foldl_addStack (t : List Nat) (ps : List PlayerState) (amt : Int)
    (j : Nat) (hnd : t.Nodup) (hj : j < ps.length) :
    (t.foldl (fun ps i => addStack ps i amt) ps).getD j default =
      (if j ∈ t then
        { ps.getD j default with stack := (ps.getD j default).stack + amt }
       else ps.getD j default) := by
  induction t generalizing ps with
  | nil => simp
  | cons a t ih =>
    simp only [List.foldl_cons]
    have hnd2 := List.nodup_cons.mp hnd
    rw [ih (addStack ps a amt) hnd2.2 (by rw [length_addStack]; exact hj)]
    by_cases hja : j = a
    · subst hja
      rw [if_neg hnd2.1, if_pos (List.mem_cons_self _ _)]
      exact getD_addStack_self ps j amt hj
    · rw [getD_addStack_ne ps a j amt (fun hc => hja hc.symm)]
      by_cases hjt : j ∈ t
      · rw [if_pos hjt, if_pos (List.mem_cons_of_mem _ hjt)]
      · rw [if_neg hjt, if_neg (by
          intro hc
          rcases List.mem_cons.mp hc with rfl | hc2
          · exact hja rfl
          · exact hjt hc2)]

theorem showdownWinners_sublist_active (score : List String → List String → Nat)
    (e : PokerEngine) :
    List.Sublist (showdownWinners score e) (showdownActive e) :=
  List.filter_sublist _

theorem showdownWinners_pairwise_lt (score : List String → List String → Nat)
    (e : PokerEngine) : (showdownWinners score e).Pairwise (· < ·) := by
  have h1 : List.Pairwise (· < ·) (showdownActive e) :=
    List.Pairwise.sublist (List.filter_sublist _) (List.pairwise_lt_range _)
  exact List.Pairwise.sublist (showdownWinners_sublist_active score e) h1

theorem mem_showdownWinners_lt (score : List String → List String → Nat)
    (e : PokerEngine) (i : Nat) (h : i ∈ showdownWinners score e) :
    i < e.players.length := by
  apply mem_showdownActive_lt e i
  unfold showdownWinners at h
  exact (List.mem_filter.mp h).1

/-- **C8** — when at least two unfolded seats reach showdown and at least
two of them (`showdownWinners`, the seat-ordered seats achieving the minimal
score `showdownBest`) tie, distribution adds `pot / k` to each co-winner's
stack, pays the remainder `pot % k` entirely to the co-winner with the
lowest seat position (the head of the seat-ordered co-winner list, which is
≤ every co-winner), records exactly one `split` entry with winners, share
and remainder, zeroes the pot, and leaves every other seat untouched. -/
theorem tie_split_distribution (score : List String → List String → Nat)
    (e : PokerEngine)
    (hlen : 2 ≤ (showdownActive e).length)
    (hk : 2 ≤ (showdownWinners score e).length) :
    (evaluate_and_distribute score e).total_pot = 0 ∧
    (evaluate_and_distribute score e).pot_history = e.pot_history ++
      [PotEntry.split
        ((showdownWinners score e).map (fun i => (e.players.getD i default).player_id))
        (e.total_pot / ((showdownWinners score e).length : Int))
        (e.total_pot % ((showdownWinners score e).length : Int))] ∧
    (∀ sp ∈ showdownScores score e, showdownBest score e ≤ sp.1) ∧
    (∃ sp ∈ showdownScores score e, sp.1 = showdownBest score e) ∧
    ((showdownWinners score e).headD 0 ∈ showdownWinners score e) ∧
    (∀ j ∈ showdownWinners score e, (showdownWinners score e).headD 0 ≤ j) ∧
    (∀ j, j < e.players.length →
      (evaluate_and_distribute score e).players.getD j default =
        { e.players.getD j default with
          stack := (e.players.getD j default).stack +
            (if j ∈ showdownWinners score e then
              e.total_pot / ((showdownWinners score e).length : Int) else 0) +
            (if j = (showdownWinners score e).headD 0 then
              e.total_pot % ((showdownWinners score e).length : Int) else 0) }) := by
  have htied := showdownTied_eq score e
  have hne : showdownScores score e ≠ [] := by
    unfold showdownScores
    intro hc
    have := congrArg List.length hc
    simp only [List.length_map, List.length_nil] at this
    omega
  have hwne : showdownWinners score e ≠ [] := by
    intro hc
    rw [hc] at hk
    simp at hk
  have hhead : (showdownWinners score e).headD 0 ∈ showdownWinners score e := by
    cases hcc : showdownWinners score e with
    | nil => exact absurd hcc hwne
    | cons a t =>
      dsimp only [List.headD_cons]
      exact List.mem_cons_self _ _
  have hheadle : ∀ j ∈ showdownWinners score e,
      (showdownWinners score e).headD 0 ≤ j := by
    have hpw := showdownWinners_pairwise_lt score e
    intro j hj
    cases hcc : showdownWinners score e with
    | nil =>
      rw [hcc] at hj
      cases hj
    | cons a t =>
      rw [hcc] at hj hpw
      dsimp only [List.headD_cons]
      rcases List.mem_cons.mp hj with rfl | hj2
      · exact Nat.le_refl _
      · exact Nat.le_of_lt (List.rel_of_pairwise_cons hpw hj2)
  have hnd : (showdownWinners score e).Nodup :=
    List.Pairwise.imp (fun h => Nat.ne_of_lt h) (showdownWinners_pairwise_lt score e)
  have hheadlt : (showdownWinners score e).headD 0 < e.players.length :=
    mem_showdownWinners_lt score e _ hhead
  unfold evaluate_and_distribute
  split
  · rename_i hc
    exfalso
    rw [hc] at hlen
    simp at hlen
  · rename_i w hc
    exfalso
    rw [hc] at hlen
    simp at hlen
  · dsimp only
    rw [htied]
    refine ⟨rfl, rfl, fun sp hsp => showdownBest_min score e sp hsp,
      showdownBest_attained score e hne, hhead, hheadle, ?_⟩
    intro j hj
    have hlenfold : ((showdownWinners score e).foldl
        (fun ps i => addStack ps i
          (e.total_pot / ((showdownWinners score e).length : Int)))
        e.players).length = e.players.length :=
      length_foldl_addStack _ _ _
    by_cases hjh : j = (showdownWinners score e).headD 0
    · subst hjh
      rw [getD_addStack_self _ _ _ (by rw [hlenfold]; exact hheadlt)]
      rw [getD_foldl_addStack _ _ _ _ hnd hj]
      rw [if_pos hhead, if_pos hhead, if_pos rfl]
    · rw [getD_addStack_ne _ _ _ _ (fun hc => hjh hc.symm)]
      rw [getD_foldl_addStack _ _ _ _ hnd hj]
      rw [if_neg hjh]
      by_cases hjm : j ∈ showdownWinners score e
      · rw [if_pos hjm, if_pos hjm]
        simp
      · rw [if_neg hjm, if_neg hjm]
        simp

/-- Witness for C8: three seats tie under `scoreZ` with pot 100; the
co-winner set has length 3 and distribution zeroes the pot, with the lowest
seat first in the co-winner list. -/
theorem tie_split_distribution_witness :
    (evaluate_and_distribute scoreZ cTie).total_pot = 0 ∧
      (showdownWinners scoreZ cTie).headD 0 ∈ showdownWinners scoreZ cTie := by
  have hb : showdownBest scoreZ cTie = 0 := by
    obtain ⟨sp, hmem, heq⟩ := showdownBest_attained scoreZ cTie (by decide)
    rw [← heq]
    have hall : ∀ sp2 ∈ showdownScores scoreZ cTie, sp2.1 = 0 := by decide
    exact hall sp hmem
  have hk : 2 ≤ (showdownWinners scoreZ cTie).length := by
    unfold showdownWinners
    rw [hb]
    decide
  have h := tie_split_distribution scoreZ cTie (by decide) hk
  exact ⟨h.1, h.2.2.2.2.1⟩

end Poker
